import Mathlib

/-!
Shallow embedding of the asynchronous research pipeline of the Synthesia
repository: the priority job queue (`EmbeddedJobProcessor` in
`src/backend/src/services/queue-manager.ts`), the research pipeline
(`ResearchProcessor` variants in `src/backend/jest.config.js`, which bundles
two overlapping copies of `ResearchProcessor`), the simplified worker
(`ResearchWorker` in `src/unnamed/part_004` /
`src/backend/src/workers/research.worker.ts`), and the keyword extractor
(`src/backend/src/services/nlp/KeywordExtractor.ts`).

JavaScript numbers are modelled as rationals (`ℚ`), JavaScript strings as
Lean `String`/`List Char`, thrown exceptions as `Except`, and the
insertion-ordered JavaScript `Map`/`Set` as association lists that keep the
first occurrence.
-/

/-- Article record as used by the pipeline (`ProcessedArticle` in
`src/backend/src/types`): title, url, summary, source, and the relevance
score attached by ranking (JS `number`, modelled as `ℚ`; absent scores read
as `0` through `relevanceScore || 0` in the source, so the field is total
with default `0`). -/
structure ProcessedArticle where
  title : String
  url : String
  summary : String
  source : String
  relevanceScore : ℚ := 0
deriving DecidableEq

/-- Model of JavaScript `Array.from(new Set(list))` for strings: keep the
first occurrence of each element, preserving insertion order (`Set`
iteration order in JS is insertion order). -/
def uniqueFirstAux : List String → List String → List String
  | _, [] => []
  | seen, x :: rest =>
    if x ∈ seen then uniqueFirstAux seen rest
    else x :: uniqueFirstAux (x :: seen) rest

/-- Model of `new Set(list)` as the insertion-ordered list of distinct
elements; its length is the JS `Set.size`. -/
def uniqueFirst (l : List String) : List String := uniqueFirstAux [] l

/-- Model of the lowercase conversion performed by JS `toLowerCase` on the
ASCII input this pipeline handles: map `A`-`Z` to `a`-`z`, leave the rest. -/
def jsLower (c : Char) : Char :=
  if 'A' ≤ c ∧ c ≤ 'Z' then Char.ofNat (c.toNat + 32) else c

/-- Lowercase a whole string, character by character (JS `toLowerCase`). -/
def lowerStr (s : String) : String := ⟨s.data.map jsLower⟩

/-- Model of the JS regex class `[a-zA-Z]` used by the NLP code. -/
def isLetterCh (c : Char) : Bool := ('a' ≤ c ∧ c ≤ 'z') ∨ ('A' ≤ c ∧ c ≤ 'Z')

/-- Model of the JS regex class `\s` for the ASCII whitespace the pipeline
meets: space, tab, newline, carriage return. -/
def isWsCh (c : Char) : Bool := c = ' ' ∨ c = '\t' ∨ c = '\n' ∨ c = '\r'

/-- Split a character list on the single character `' '`, keeping empty
chunks, exactly like JS `String.prototype.split(' ')` (so `"".split(' ')`
gives `[""]`, and consecutive separators give empty strings). -/
def splitSpAux : List Char → List Char → List (List Char)
  | [], cur => [cur.reverse]
  | c :: rest, cur =>
    if c = ' ' then cur.reverse :: splitSpAux rest []
    else splitSpAux rest (c :: cur)

/-- JS `split(' ')` on a character list. -/
def splitSp (l : List Char) : List (List Char) := splitSpAux l []

/-- JS `topic.toLowerCase().split(' ')`, as a list of strings. -/
def splitWordsJs (s : String) : List String :=
  (splitSp (lowerStr s).data).map (fun cs => ⟨cs⟩)

/-- Non-overlapping occurrence counting, scanning left to right and skipping
past each match, with `skip` counting positions still covered by the last
match: this is the number of matches JS `text.match(/lit/g)` reports for a
literal pattern `lit`. -/
def countOccsAux (w : List Char) : List Char → ℕ → ℕ
  | [], _ => 0
  | _ :: rest, Nat.succ k => countOccsAux w rest k
  | c :: rest, 0 =>
    if w.isPrefixOf (c :: rest) then 1 + countOccsAux w rest (w.length - 1)
    else countOccsAux w rest 0

/-- Number of matches of the literal pattern `w` in `t`, as JS
`t.match(new RegExp(escaped w, 'g'))` counts them; the empty pattern matches
once at every position including the end, hence `t.length + 1`. -/
def countOccs (w t : List Char) : ℕ :=
  if w = [] then t.length + 1 else countOccsAux w t 0

/-- Occurrence count on strings. -/
def countOccsStr (w t : String) : ℕ := countOccs w.data t.data

namespace ResearchProcessor

/-- The characters escaped by the first `rankByRelevance` variant
(`jest.config.js` line 212): the JS replacement
`word.replace(/[.*+?^$\x7b\x7d()|[\]\\]/g, '\\$&')` targets exactly this set. -/
def regexSpecials : List Char :=
  ['.', '*', '+', '?', '^', '$', '{', '}', '(', ')', '|', '[', ']', '\\']

/-- Escape one character the way the source's `replace` call does: prefix a
backslash when the character is special, keep it otherwise. -/
def escChar (c : Char) : List Char :=
  if c ∈ regexSpecials then ['\\', c] else [c]

/-- The source's `word.replace(/[.*+?^$\x7b\x7d()|[\]\\]/g, '\\$&')`. -/
def escapeRegExp (w : String) : String := ⟨w.data.flatMap escChar⟩

/-- Modelled from the spec: syntactic validity of a pattern handed to the JS
`RegExp` constructor (the spec's "crash on pathological input" in §9 and
§4.3 step 3 is `new RegExp(word)` throwing a `SyntaxError`).  The model
walks the pattern tracking group depth (`d`), whether a quantifier may
follow (`pa`), and whether we are inside a character class (`ic`):
an escape `\c` is always an atom, `(` opens a group, `)` must close one,
`[` opens a class that must be closed by `]`, and `*`/`+`/`?` need a
preceding atom.  It is exact on the inputs the theorems use: fully escaped
words (always valid) and a bare `(` (invalid, "unterminated group"). -/
def regexOkAux : List Char → ℕ → Bool → Bool → Bool
  | [], d, _, ic => !ic && d == 0
  | '\\' :: [], _, _, _ => false
  | '\\' :: _ :: rest2, d, _, ic => regexOkAux rest2 d true ic
  | c :: rest, d, pa, ic =>
    if ic then
      if c = ']' then regexOkAux rest d true false
      else regexOkAux rest d pa true
    else if c = '(' then regexOkAux rest (d + 1) false false
    else if c = ')' then d != 0 && regexOkAux rest (d - 1) true false
    else if c = '[' then regexOkAux rest d false true
    else if c = '*' ∨ c = '+' ∨ c = '?' then pa && regexOkAux rest d false false
    else regexOkAux rest d true false

/-- Validity of a whole pattern (whether `new RegExp(pat, 'g')` succeeds). -/
def regexOk (pat : String) : Bool := regexOkAux pat.data 0 false false

/-- JS `Array.prototype.map` with a callback that can throw: the first
exception aborts the whole map. -/
def mapExcept {ε α β : Type} (f : α → Except ε β) : List α → Except ε (List β)
  | [] => Except.ok []
  | a :: l => do
    let b ← f a
    let bs ← mapExcept f l
    pure (b :: bs)

/-- Scoring step of the first `rankByRelevance` variant (`jest.config.js`
lines 207-217): lowercase `title + " " + (summary || '')`, then for each
topic word build `new RegExp(escaped word, 'g')` — modelled as an `Except`
that errors when the pattern is invalid, which the escaping in fact rules
out — count its matches and add `occurrences * 2` to the running score.
For an escaped (hence literal) pattern the match count is the
non-overlapping occurrence count `countOccsStr`. -/
def scoreArticleEsc (topicWords : List String) (article : ProcessedArticle) :
    Except String ProcessedArticle :=
  let text := lowerStr (article.title ++ " " ++ article.summary)
  (topicWords.foldlM
      (fun score w =>
        if regexOk (escapeRegExp w) then
          Except.ok (score + countOccsStr w text * 2)
        else Except.error "Invalid regular expression") 0).map
    (fun score => { article with relevanceScore := (score : ℚ) })

/-- Scoring step of the second `rankByRelevance` variant (`jest.config.js`
lines 537-547): identical except that the topic word is passed to
`new RegExp(word, 'g')` unescaped, so an invalid pattern throws.  For the
valid patterns the theorems evaluate (plain literal words) the match count
is again the literal occurrence count. -/
def scoreArticleUnescaped (topicWords : List String) (article : ProcessedArticle) :
    Except String ProcessedArticle :=
  let text := lowerStr (article.title ++ " " ++ article.summary)
  (topicWords.foldlM
      (fun score w =>
        if regexOk w then Except.ok (score + countOccsStr w text * 2)
        else Except.error "Invalid regular expression") 0).map
    (fun score => { article with relevanceScore := (score : ℚ) })

/-- Stable descending comparison on relevance scores: JS
`sort((a, b) => b.relevanceScore - a.relevanceScore)` (stable since
ES2019). -/
def scoreGE (a b : ProcessedArticle) : Prop := b.relevanceScore ≤ a.relevanceScore

instance : DecidableRel scoreGE := fun a b => by
  unfold scoreGE; infer_instance

/-- First `rankByRelevance` variant (`jest.config.js` lines 203-219):
split the lowercased topic on spaces, score every article (escaped
patterns), sort by descending score. -/
def rankByRelevance (articles : List ProcessedArticle) (topic : String) :
    Except String (List ProcessedArticle) :=
  let topicWords := splitWordsJs topic
  (mapExcept (scoreArticleEsc topicWords) articles).map (List.insertionSort scoreGE)

/-- Second `rankByRelevance` variant (`jest.config.js` lines 533-549):
same, but the topic words go into the pattern unescaped. -/
def rankByRelevanceUnescaped (articles : List ProcessedArticle) (topic : String) :
    Except String (List ProcessedArticle) :=
  let topicWords := splitWordsJs topic
  (mapExcept (scoreArticleUnescaped topicWords) articles).map (List.insertionSort scoreGE)

/-- Dedup key: `article.title.toLowerCase() + article.url`
(`jest.config.js` line 194). -/
def dedupKey (a : ProcessedArticle) : String := lowerStr a.title ++ a.url

/-- `removeDuplicates` (`jest.config.js` lines 191-201): filter with a
mutable `seen` set of keys — the first occurrence of each key survives. -/
def removeDuplicatesAux : List String → List ProcessedArticle → List ProcessedArticle
  | _, [] => []
  | seen, a :: rest =>
    if dedupKey a ∈ seen then removeDuplicatesAux seen rest
    else a :: removeDuplicatesAux (dedupKey a :: seen) rest

/-- `ResearchProcessor.removeDuplicates`. -/
def removeDuplicates (articles : List ProcessedArticle) : List ProcessedArticle :=
  removeDuplicatesAux [] articles

/-- `processArticles` (`jest.config.js` lines 177-189): dedup, rank, keep
the top 20; when ranking throws, fall back to the first 20 raw articles. -/
def processArticles (articles : List ProcessedArticle) (topic : String) :
    List ProcessedArticle :=
  match rankByRelevance (removeDuplicates articles) topic with
  | Except.ok ranked => ranked.take 20
  | Except.error _ => articles.take 20

/-- `calculateConfidence` (`jest.config.js` lines 221-229):
`0` for no articles, otherwise
`min((avgRelevance / 10) * 0.7 + (sourceVariety / 3) * 0.3, 1.0)` with
`sourceVariety = new Set(articles.map(a => a.source)).size`. -/
def calculateConfidence (articles : List ProcessedArticle) : ℚ :=
  if articles.length = 0 then 0
  else
    let avgRelevance :=
      (articles.map (fun a => a.relevanceScore)).sum / (articles.length : ℚ)
    let sourceVariety := (uniqueFirst (articles.map (fun a => a.source))).length
    min (avgRelevance / 10 * (7 / 10) + (sourceVariety : ℚ) / 3 * (3 / 10)) 1

/-- Model of the JS regex `\b\w{3,}\b` used by `fallbackKeywordExtraction`
(`jest.config.js` line 236): the maximal runs of word characters
(letters, digits, underscore) of length at least 3. -/
def isWordCh (c : Char) : Bool :=
  isLetterCh c ∨ ('0' ≤ c ∧ c ≤ '9') ∨ c = '_'

/-- Maximal `\w` runs of a character list (word-boundary tokenisation). -/
def wordRunsAux : List Char → List Char → List (List Char)
  | [], cur => if cur = [] then [] else [cur.reverse]
  | c :: rest, cur =>
    if isWordCh c then wordRunsAux rest (c :: cur)
    else if cur = [] then wordRunsAux rest []
    else cur.reverse :: wordRunsAux rest []

/-- All matches of `\b\w{3,}\b` in a character list. -/
def wordTokens (l : List Char) : List String :=
  ((wordRunsAux l []).filter (fun w => 3 ≤ w.length)).map (fun cs => ⟨cs⟩)

/-- Insertion-ordered frequency map update: JS
`map.set(k, (map.get(k) || 0) + n)` on an insertion-ordered `Map`. -/
def bump (k : String) (n : ℕ) : List (String × ℕ) → List (String × ℕ)
  | [] => [(k, n)]
  | (k', m) :: rest =>
    if k' = k then (k', m + n) :: rest else (k', m) :: bump k n rest

/-- Stable descending comparison on the counts of frequency entries: JS
`entries.sort((a, b) => b[1] - a[1])`. -/
def countGE (a b : String × ℕ) : Prop := b.2 ≤ a.2

instance : DecidableRel countGE := fun a b => by
  unfold countGE; infer_instance

/-- The stop-word list hard-coded in `fallbackKeywordExtraction`
(`jest.config.js` line 238). -/
def fallbackStopList : List String :=
  ["the", "and", "for", "are", "but", "not", "you", "all", "can", "had",
   "her", "was", "one", "our", "out", "day", "get", "has", "him", "his",
   "how", "man", "new", "now", "old", "see", "two", "way", "who", "boy",
   "did", "its", "let", "put", "say", "she", "too", "use"]

/-- `fallbackKeywordExtraction` (`jest.config.js` lines 231-247): word
tokens of the lowercased joined `title + " " + summary` texts, keep words
longer than 3 characters that are not in the hard-coded stop list, count
frequencies, sort descending, keep the top 10. -/
def fallbackKeywordExtraction (articles : List ProcessedArticle) : List String :=
  let text :=
    lowerStr (String.intercalate " "
      (articles.map (fun a => a.title ++ " " ++ a.summary)))
  let wordList := wordTokens text.data
  let words := wordList.foldl
    (fun m word =>
      if 3 < word.length ∧ ¬ word ∈ fallbackStopList then bump word 1 m else m) []
  ((List.insertionSort countGE words).take 10).map Prod.fst

/-- `fallbackSummaryGeneration` (`jest.config.js` lines 249-254). -/
def fallbackSummaryGeneration (articles : List ProcessedArticle) : String :=
  if articles.length = 0 then "No articles found for analysis."
  else
    let topTitles :=
      String.intercalate "; " ((articles.take 5).map (fun a => a.title))
    "Research summary based on " ++ toString articles.length ++
      " articles. Key topics include: " ++ topTitles

/-- `fallbackInsightGeneration` (`jest.config.js` lines 256-264). -/
def fallbackInsightGeneration (articles : List ProcessedArticle) : List String :=
  if articles.length = 0 then ["No insights available"]
  else
    ["Found " ++ toString articles.length ++ " relevant articles",
     "Sources include: " ++
       String.intercalate ", " (uniqueFirst (articles.map (fun a => a.source))),
     "Analysis completed using basic processing due to service limitations"]

/-- Final stored request status (`RequestStatus` in the Prisma schema,
restricted to the outcomes `execute` can leave behind). -/
inductive RequestStatus
  | completed
  | failed
deriving DecidableEq

/-- The `ResearchResults` record (`src/backend/src/types`). -/
structure ResearchResults where
  summary : String
  keyInsights : List String
  keywords : List String
  articles : List ProcessedArticle
  totalArticles : ℕ
  processingTime : ℕ
  confidence : ℚ
deriving DecidableEq

/-- Outcome of one `execute` run: the returned results (`none` when
`execute` threw), the final request status, and the sequence of progress
percentages reported to the progress sink, in order. -/
structure ExecOutcome where
  result : Option ResearchResults
  finalStatus : RequestStatus
  progressTrace : List ℕ
deriving DecidableEq

/-- The summary of the zero-article short-circuit
(`jest.config.js` line 68). -/
def emptyTopicSummary (topic : String) : String :=
  "No articles were found for the topic \"" ++ topic ++
    "\". This could be due to API limitations or the topic being too specific."

/-- `ResearchProcessor.execute` (`jest.config.js` lines 44-134), purified.
`fetched` is the concatenation of what the search providers returned
(providers that throw or time out contribute nothing, lines 140-158);
`kwOutcome` is the keyword extractor call — `Except.ok ks` when
`keywordExtractor.extract` returned `ks`, `Except.error ()` when it threw;
`sumOutcome` likewise stands for the `generateSummary`/`generateInsights`
pair; `saveOk` tells whether the final `saveResults` transaction succeeded
(progress-update write failures are swallowed by the source and do not
appear); `elapsed` is `Date.now() - startTime`.  Progress reports happen at
0 and 10, then either straight to 100 on the zero-article short-circuit or
through 40, 70, 85, 95, 100; a failing final save throws, so the trailing
100 is never reported and the job is marked failed. -/
def execute (topic : String) (fetched : List ProcessedArticle)
    (kwOutcome : Except Unit (List String))
    (sumOutcome : Except Unit (String × List String))
    (saveOk : Bool) (elapsed : ℕ) : ExecOutcome :=
  if fetched.length = 0 then
    let emptyResults : ResearchResults :=
      { summary := emptyTopicSummary topic
        keyInsights := ["No insights available due to lack of data"]
        keywords := []
        articles := []
        totalArticles := 0
        processingTime := elapsed
        confidence := 0 }
    if saveOk then
      { result := some emptyResults, finalStatus := RequestStatus.completed
        progressTrace := [0, 10, 100] }
    else
      { result := none, finalStatus := RequestStatus.failed
        progressTrace := [0, 10] }
  else
    let processed := processArticles fetched topic
    let keywords :=
      match kwOutcome with
      | Except.ok ks => ks
      | Except.error _ => fallbackKeywordExtraction processed
    let sumPair :=
      match sumOutcome with
      | Except.ok p => p
      | Except.error _ =>
        (fallbackSummaryGeneration processed, fallbackInsightGeneration processed)
    let results : ResearchResults :=
      { summary := sumPair.1
        keyInsights := sumPair.2
        keywords := keywords
        articles := processed
        totalArticles := processed.length
        processingTime := elapsed
        confidence := calculateConfidence processed }
    if saveOk then
      { result := some results, finalStatus := RequestStatus.completed
        progressTrace := [0, 10, 40, 70, 85, 95, 100] }
    else
      { result := none, finalStatus := RequestStatus.failed
        progressTrace := [0, 10, 40, 70, 85, 95] }

end ResearchProcessor

namespace ResearchWorker

/-- JS `list.lastIndexOf(c)`: index of the last occurrence, `-1` if none. -/
def lastIndexOf (c : Char) (l : List Char) : ℤ :=
  match l.reverse.findIdx? (fun x => x = c) with
  | none => -1
  | some i => (l.length : ℤ) - 1 - (i : ℤ)

/-- `ResearchWorker.summarizeArticle` (`src/unnamed/part_004` lines
252-268): use the summary (or the title when the summary is empty — JS
`article.summary || article.title`), return it unchanged when at most 200
characters, otherwise truncate at the last period past position 150, else
the last space past 150, else hard-truncate, appending `...`. -/
def summarizeArticle (a : ProcessedArticle) : String :=
  let summary := if a.summary = "" then a.title else a.summary
  if summary.data.length ≤ 200 then summary
  else
    let truncated : List Char := summary.data.take 200
    let lastPeriod := lastIndexOf '.' truncated
    let lastSpace := lastIndexOf ' ' truncated
    if 150 < lastPeriod then ⟨truncated.take (lastPeriod + 1).toNat⟩
    else if 150 < lastSpace then String.mk (truncated.take lastSpace.toNat) ++ "..."
    else String.mk truncated ++ "..."

/-- `ResearchWorker.processArticles` (`src/unnamed/part_004` lines
236-250): sort by descending relevance score, keep the top 5, replace each
summary and damp the score by `index * 0.05` with a floor of `0.6`. -/
def processArticles (articles : List ProcessedArticle) (_topic : String) :
    List ProcessedArticle :=
  let topArticles := (List.insertionSort ResearchProcessor.scoreGE articles).take 5
  topArticles.mapIdx (fun i a =>
    { a with
      summary := summarizeArticle a
      relevanceScore := max (3 / 5) (a.relevanceScore - (i : ℚ) * (1 / 20)) })

/-- `ResearchWorker.calculateConfidence` (`src/unnamed/part_004` lines
311-319): `0.5` when there are no articles, otherwise
`min(0.95, max(0.5, avgRelevance + min(sourceCount * 0.1, 0.2)))`. -/
def calculateConfidence (articles : List ProcessedArticle) : ℚ :=
  if articles.length = 0 then 1 / 2
  else
    let avgRelevance :=
      (articles.map (fun a => a.relevanceScore)).sum / (articles.length : ℚ)
    let sourceCount := (uniqueFirst (articles.map (fun a => a.source))).length
    let sourceBonus := min ((sourceCount : ℚ) * (1 / 10)) (1 / 5)
    min (19 / 20) (max (1 / 2) (avgRelevance + sourceBonus))

/-- The `totalArticles` field of the results record `processResearchTask`
builds (`src/unnamed/part_004` lines 48-56): the length of the processed
article list. -/
def totalArticlesFor (fetched : List ProcessedArticle) (topic : String) : ℕ :=
  (processArticles fetched topic).length

/-- The `confidence` field of the same results record. -/
def confidenceFor (fetched : List ProcessedArticle) (topic : String) : ℚ :=
  calculateConfidence (processArticles fetched topic)

end ResearchWorker

namespace EmbeddedJobProcessor

/-- Job priority (`'low' | 'normal' | 'high'` in `ResearchJobData`). -/
inductive JobPriority
  | low
  | normal
  | high
deriving DecidableEq

/-- In-memory job status (`queue-manager.ts`). -/
inductive JobStatus
  | waiting
  | active
  | completed
  | failed
deriving DecidableEq, BEq

/-- One entry of the `jobs` map of `EmbeddedJobProcessor`
(`queue-manager.ts` lines 17-35): topic and priority from the submitted
`ResearchJobData`, plus the mutable status.  The insertion-ordered JS `Map`
is modelled as a list in insertion order, which also encodes the
`createdAt` order (submission order). -/
structure QueuedJob where
  topic : String
  priority : JobPriority
  status : JobStatus
deriving DecidableEq

/-- `addJob` (`queue-manager.ts` lines 17-35) inserts a fresh entry with
status `waiting` at the end of the map. -/
def submit (topic : String) (priority : JobPriority) : QueuedJob :=
  { topic := topic, priority := priority, status := JobStatus.waiting }

/-- One `processNextJob` selection (`queue-manager.ts` lines 43-44): walk
`jobs.entries()` in insertion order and take the first entry whose status
is `waiting` — the priority field is never consulted. -/
def nextWaitingIdx (jobs : List QueuedJob) : Option ℕ :=
  jobs.findIdx? (fun j => j.status == JobStatus.waiting)

/-- The driver loop of `EmbeddedJobProcessor` run to quiescence with one
worker: repeatedly pick the first waiting job, run it (successfully — the
pipeline outcome does not influence selection), mark it completed, and
re-poll; the fuel argument bounds the number of rounds.  Returns the topics
in execution order. -/
def runQueue : ℕ → List QueuedJob → List String
  | 0, _ => []
  | Nat.succ fuel, jobs =>
    match nextWaitingIdx jobs with
    | none => []
    | some i =>
      match jobs.get? i with
      | none => []
      | some j =>
        j.topic :: runQueue fuel (jobs.set i { j with status := JobStatus.completed })

/-- Execution order of a freshly submitted job table under the embedded
processor. -/
def executionOrder (jobs : List QueuedJob) : List String :=
  runQueue jobs.length jobs

/-- Priority rank as the spec states it (high=3 > normal=2 > low=1). -/
def priorityRank : JobPriority → ℕ
  | JobPriority.high => 3
  | JobPriority.normal => 2
  | JobPriority.low => 1

/-- Stable comparison by descending priority rank. -/
def priorityGE (a b : QueuedJob) : Prop :=
  priorityRank b.priority ≤ priorityRank a.priority

instance : DecidableRel priorityGE := fun a b => by
  unfold priorityGE; infer_instance

/-- Modelled from the spec (claim C1): the execution order a
priority-then-FIFO scheduler would realise — waiting jobs sorted stably by
descending priority rank, ties in submission order. -/
def specPriorityOrder (jobs : List QueuedJob) : List String :=
  ((List.insertionSort priorityGE
      (jobs.filter (fun j => j.status == JobStatus.waiting))).map
    (fun j => j.topic))

end EmbeddedJobProcessor

namespace KeywordExtractor

/-- Modelled from the spec: the fixed English stop-word list imported from
`@/utils/stopwords`, a file that is not part of the sources; §4.4 only
requires "a fixed English stop-word list", and none of the proved
properties depends on its contents. -/
def stopwords : List String :=
  ["the", "a", "an", "and", "or", "but", "in", "on", "at", "to", "for",
   "of", "with", "by", "from", "as", "is", "are", "was", "were", "been",
   "be", "have", "has", "had", "do", "does", "did", "will", "would",
   "could", "should", "may", "might", "must", "can", "this", "that",
   "these", "those", "there", "their", "they", "them", "then", "than",
   "also", "into", "over", "under", "about", "after", "before", "between",
   "through", "during", "more", "most", "other", "some", "such", "only",
   "very", "just", "because", "while", "where", "when", "which", "what",
   "its", "his", "her", "him", "she", "you", "your", "our", "out", "not"]

/-- Squash every whitespace run to a single space: JS
`replace(/\s+/g, ' ')`. -/
def squashWs : List Char → List Char
  | [] => []
  | [c] => [if isWsCh c then ' ' else c]
  | a :: b :: rest =>
    if isWsCh a ∧ isWsCh b then squashWs (b :: rest)
    else (if isWsCh a then ' ' else a) :: squashWs (b :: rest)

/-- JS `trim()` after whitespace squashing (only plain spaces remain). -/
def trimSpaces (l : List Char) : List Char :=
  ((l.dropWhile (fun c => c = ' ')).reverse.dropWhile (fun c => c = ' ')).reverse

/-- The `cleanText` chain of `extract` (`KeywordExtractor.ts` lines 13-17):
lowercase, replace every character outside `[a-zA-Z\s]` by a space, squash
whitespace runs, trim. -/
def cleanChars (text : String) : List Char :=
  trimSpaces (squashWs
    ((text.data.map jsLower).map (fun c => if isLetterCh c ∨ isWsCh c then c else ' ')))

/-- `cleanText.split(' ').filter(word => word.length > 2)`
(`KeywordExtractor.ts` line 19). -/
def wordsOf (text : String) : List String :=
  ((splitSp (cleanChars text)).map (fun cs : List Char => (⟨cs⟩ : String))).filter
    (fun w => 2 < w.length)

/-- The stop-word/length filter (`KeywordExtractor.ts` lines 22-24). -/
def filteredWordsOf (text : String) : List String :=
  (wordsOf text).filter (fun w => ¬ w ∈ stopwords ∧ 2 < w.length)

/-- 2-word phrase synthesis (`KeywordExtractor.ts` lines 54-59): join each
adjacent pair, keep phrases with `5 < length < 30`. -/
def twoWordPhrases : List String → List String
  | a :: b :: rest => (a ++ " " ++ b) :: twoWordPhrases (b :: rest)
  | _ => []

/-- 3-word phrase synthesis (`KeywordExtractor.ts` lines 62-67): join each
adjacent triple, keep phrases with `8 < length < 40`. -/
def threeWordPhrases : List String → List String
  | a :: b :: c :: rest =>
    (a ++ " " ++ b ++ " " ++ c) :: threeWordPhrases (b :: c :: rest)
  | _ => []

/-- `extractPhrases` (`KeywordExtractor.ts` lines 50-70). -/
def extractPhrases (words : List String) : List String :=
  (twoWordPhrases words).filter (fun p => 5 < p.length ∧ p.length < 30) ++
    (threeWordPhrases words).filter (fun p => 8 < p.length ∧ p.length < 40)

/-- `KeywordExtractor.extract` (`KeywordExtractor.ts` lines 6-48): empty or
whitespace-only input returns no keywords; otherwise count unigram
frequencies, add 2-word and 3-word phrases with a `+2` weight bonus into
the same insertion-ordered map, sort by weight descending (stable), keep
the top `maxKeywords`, and keep only keywords longer than 2 characters. -/
def extract (text : String) (maxKeywords : ℕ := 15) : List String :=
  if text.data.all isWsCh then []
  else
    let filteredWords := filteredWordsOf text
    let wordFreq := filteredWords.foldl
      (fun m w => ResearchProcessor.bump w 1 m) []
    let phrases := extractPhrases filteredWords
    let wordFreq2 := phrases.foldl
      (fun m p => ResearchProcessor.bump p 2 m) wordFreq
    (((List.insertionSort ResearchProcessor.countGE wordFreq2).take
        maxKeywords).map Prod.fst).filter (fun kw => 2 < kw.length)

end KeywordExtractor

namespace ResearchProcessor

/-- The confidence formula exactly as claim C3 states it, with the inner
`min(distinctSourceCount, 3)` cap on the source-diversity term. -/
def claimedConfidenceFormula (articles : List ProcessedArticle) : ℚ :=
  if articles.length = 0 then 0
  else
    let avgRelevanceScore :=
      (articles.map (fun a => a.relevanceScore)).sum / (articles.length : ℚ)
    let distinctSourceCount := (uniqueFirst (articles.map (fun a => a.source))).length
    min ((7 / 10) * (avgRelevanceScore / 10) +
      (3 / 10) * (min (distinctSourceCount : ℚ) 3 / 3)) 1

theorem removeDuplicatesAux_sublist (seen : List String)
    (l : List ProcessedArticle) : (removeDuplicatesAux seen l).Sublist l := by
  induction l generalizing seen with
  | nil => simp [removeDuplicatesAux]
  | cons a rest ih =>
    simp only [removeDuplicatesAux]
    split
    · exact (ih seen).trans (List.sublist_cons_self a rest)
    · exact (ih (dedupKey a :: seen)).cons₂ a

theorem mem_removeDuplicatesAux (seen : List String) (l : List ProcessedArticle) :
    ∀ a ∈ removeDuplicatesAux seen l, dedupKey a ∉ seen := by
  induction l generalizing seen with
  | nil => simp [removeDuplicatesAux]
  | cons b rest ih =>
    intro a ha
    simp only [removeDuplicatesAux] at ha
    split at ha
    · exact ih seen a ha
    · rcases List.mem_cons.mp ha with h | h
      · subst h; assumption
      · intro hmem
        exact ih (dedupKey b :: seen) a h (List.mem_cons_of_mem _ hmem)

theorem removeDuplicatesAux_keys_nodup (seen : List String)
    (l : List ProcessedArticle) :
    ((removeDuplicatesAux seen l).map dedupKey).Nodup := by
  induction l generalizing seen with
  | nil => simp [removeDuplicatesAux]
  | cons a rest ih =>
    simp only [removeDuplicatesAux]
    split
    · exact ih seen
    · refine List.Nodup.cons ?_ (ih (dedupKey a :: seen))
      intro hmem
      rcases List.mem_map.mp hmem with ⟨b, hb, hkey⟩
      exact mem_removeDuplicatesAux _ _ b hb (hkey ▸ List.mem_cons_self _ _)

theorem removeDuplicatesAux_covers (seen : List String)
    (l : List ProcessedArticle) :
    ∀ a ∈ l, dedupKey a ∈ seen ∨
      dedupKey a ∈ (removeDuplicatesAux seen l).map dedupKey := by
  induction l generalizing seen with
  | nil => simp
  | cons b rest ih =>
    intro a ha
    rcases List.mem_cons.mp ha with h | h
    · subst h
      simp only [removeDuplicatesAux]
      split
      · left; assumption
      · right; simp
    · simp only [removeDuplicatesAux]
      split
      · exact ih seen a h
      · rcases ih (dedupKey b :: seen) a h with hc | hc
        · rcases List.mem_cons.mp hc with h' | h'
          · right; simp [h']
          · left; exact h'
        · right
          simp only [List.map_cons, List.mem_cons]
          exact Or.inr hc

theorem removeDuplicatesAux_fixed (seen : List String)
    (l : List ProcessedArticle) (h1 : (l.map dedupKey).Nodup)
    (h2 : ∀ a ∈ l, dedupKey a ∉ seen) : removeDuplicatesAux seen l = l := by
  induction l generalizing seen with
  | nil => simp [removeDuplicatesAux]
  | cons a rest ih =>
    simp only [removeDuplicatesAux]
    rw [if_neg (h2 a (List.mem_cons_self _ _))]
    congr 1
    simp only [List.map_cons, List.nodup_cons] at h1
    refine ih (dedupKey a :: seen) h1.2 ?_
    intro b hb hmem
    rcases List.mem_cons.mp hmem with h | h
    · exact h1.1 (h ▸ List.mem_map_of_mem dedupKey hb)
    · exact h2 b (List.mem_cons_of_mem _ hb) h

theorem removeDuplicatesAux_first_kept (seen : List String)
    (l₁ : List ProcessedArticle) (a : ProcessedArticle)
    (l₂ : List ProcessedArticle) (hseen : dedupKey a ∉ seen)
    (hfirst : dedupKey a ∉ l₁.map dedupKey) :
    a ∈ removeDuplicatesAux seen (l₁ ++ a :: l₂) := by
  induction l₁ generalizing seen with
  | nil =>
    simp only [List.nil_append, removeDuplicatesAux]
    rw [if_neg hseen]
    exact List.mem_cons_self _ _
  | cons b rest ih =>
    simp only [List.map_cons, List.mem_cons, not_or] at hfirst
    simp only [List.cons_append, removeDuplicatesAux]
    split
    · exact ih seen hseen hfirst.2
    · refine List.mem_cons_of_mem b (ih (dedupKey b :: seen) ?_ hfirst.2)
      intro hmem
      rcases List.mem_cons.mp hmem with h | h
      · exact hfirst.1 h
      · exact hseen h

end ResearchProcessor

/-- Claim C9: `removeDuplicates` keeps, for each key
`lowercase(title) + url`, exactly the first occurrence, preserves the
original order (the output is a sublist of the input), loses no key, and is
idempotent: deduplicating an already-deduplicated list returns it
unchanged. -/
theorem removeDuplicates_first_seen_order_idempotent
    (l : List ProcessedArticle) :
    (ResearchProcessor.removeDuplicates l).Sublist l ∧
    ((ResearchProcessor.removeDuplicates l).map ResearchProcessor.dedupKey).Nodup ∧
    (∀ a ∈ l, ResearchProcessor.dedupKey a ∈
      (ResearchProcessor.removeDuplicates l).map ResearchProcessor.dedupKey) ∧
    (∀ l₁ a l₂, l = l₁ ++ a :: l₂ →
      ResearchProcessor.dedupKey a ∉ l₁.map ResearchProcessor.dedupKey →
      a ∈ ResearchProcessor.removeDuplicates l) ∧
    ResearchProcessor.removeDuplicates (ResearchProcessor.removeDuplicates l) =
      ResearchProcessor.removeDuplicates l := by
  unfold ResearchProcessor.removeDuplicates
  refine ⟨ResearchProcessor.removeDuplicatesAux_sublist [] l,
    ResearchProcessor.removeDuplicatesAux_keys_nodup [] l, ?_, ?_, ?_⟩
  · intro a ha
    rcases ResearchProcessor.removeDuplicatesAux_covers [] l a ha with h | h
    · exact absurd h (List.not_mem_nil _)
    · exact h
  · intro l₁ a l₂ hsplit hfirst
    subst hsplit
    exact ResearchProcessor.removeDuplicatesAux_first_kept [] l₁ a l₂
      (List.not_mem_nil _) hfirst
  · exact ResearchProcessor.removeDuplicatesAux_fixed []
      (ResearchProcessor.removeDuplicatesAux [] l)
      (ResearchProcessor.removeDuplicatesAux_keys_nodup [] l)
      (fun a _ => List.not_mem_nil _)

/-- A pair of articles sharing the dedup key (titles differing only in
case, same url). -/
def dedupDemoFirst : ProcessedArticle :=
  { title := "Solar Power", url := "u", summary := "s", source := "src" }

/-- The later duplicate of `dedupDemoFirst`. -/
def dedupDemoSecond : ProcessedArticle :=
  { title := "SOLAR POWER", url := "u", summary := "other", source := "src2" }

/-- Witness for claim C9 at a concrete two-element list with one duplicated
key. -/
theorem removeDuplicates_first_seen_order_idempotent_witness :
    dedupDemoFirst ∈
      ResearchProcessor.removeDuplicates [dedupDemoFirst, dedupDemoSecond] ∧
    ResearchProcessor.removeDuplicates
        (ResearchProcessor.removeDuplicates [dedupDemoFirst, dedupDemoSecond]) =
      ResearchProcessor.removeDuplicates [dedupDemoFirst, dedupDemoSecond] :=
  ⟨(removeDuplicates_first_seen_order_idempotent
      [dedupDemoFirst, dedupDemoSecond]).2.2.2.1 [] dedupDemoFirst
      [dedupDemoSecond] rfl (by decide),
   (removeDuplicates_first_seen_order_idempotent
      [dedupDemoFirst, dedupDemoSecond]).2.2.2.2⟩

/-- Four articles with relevance score 0 and four distinct sources: here
the source-diversity term of `calculateConfidence` is `(4/3) * 0.3 = 0.4`,
while the claimed formula caps it at `(3/3) * 0.3 = 0.3`. -/
def fourSourceArticles : List ProcessedArticle :=
  [{ title := "t1", url := "u1", summary := "", source := "s1" },
   { title := "t2", url := "u2", summary := "", source := "s2" },
   { title := "t3", url := "u3", summary := "", source := "s3" },
   { title := "t4", url := "u4", summary := "", source := "s4" }]

/-- Claim C3 (counterexample): the code's `calculateConfidence` does not
cap the distinct-source count at 3 — on four zero-score articles from four
distinct sources it yields `0.4`, whereas the claimed formula
`min(0.7·(avg/10) + 0.3·(min(sources,3)/3), 1)` yields `0.3`. -/
theorem calculateConfidence_ne_claimed_formula :
    ResearchProcessor.calculateConfidence fourSourceArticles = 2 / 5 ∧
    ResearchProcessor.claimedConfidenceFormula fourSourceArticles = 3 / 10 ∧
    ResearchProcessor.calculateConfidence fourSourceArticles ≠
      ResearchProcessor.claimedConfidenceFormula fourSourceArticles := by
  have hu : uniqueFirst (List.map (fun a => a.source) fourSourceArticles) =
      ["s1", "s2", "s3", "s4"] := rfl
  have hs : (List.map (fun a => a.relevanceScore) fourSourceArticles).sum = 0 := by
    simp [fourSourceArticles]
  have hl : fourSourceArticles.length = 4 := rfl
  have hcode : ResearchProcessor.calculateConfidence fourSourceArticles = 2 / 5 := by
    rw [ResearchProcessor.calculateConfidence, if_neg (by simp [hl])]
    rw [hu, hs, hl]
    norm_num
  have hclaim :
      ResearchProcessor.claimedConfidenceFormula fourSourceArticles = 3 / 10 := by
    rw [ResearchProcessor.claimedConfidenceFormula, if_neg (by simp [hl])]
    rw [hu, hs, hl]
    norm_num
  refine ⟨hcode, hclaim, ?_⟩
  rw [hcode, hclaim]
  norm_num

/-- Claim C3 (amended): for every non-empty article list the computed
confidence equals
`min(0.7 × (avgRelevanceScore / 10) + 0.3 × (distinctSourceCount / 3), 1)`
— the source-diversity ratio is **not** capped at 1 before weighting — and
the confidence of an empty list is 0. -/
theorem calculateConfidence_formula (articles : List ProcessedArticle)
    (h : articles ≠ []) :
    ResearchProcessor.calculateConfidence articles =
      min ((7 / 10) * (((articles.map (fun a => a.relevanceScore)).sum /
            (articles.length : ℚ)) / 10) +
        (3 / 10) * (((uniqueFirst (articles.map (fun a => a.source))).length : ℚ) / 3))
        1 ∧
    ResearchProcessor.calculateConfidence [] = 0 := by
  constructor
  · unfold ResearchProcessor.calculateConfidence
    rw [if_neg (fun hc => h (List.length_eq_zero.mp hc))]
    ring_nf
  · rfl

/-- One-article list for the claim C3 amended witness. -/
def oneArticle : List ProcessedArticle :=
  [{ title := "t", url := "u", summary := "s", source := "src",
     relevanceScore := 5 }]

/-- Witness for the amended claim C3 at a concrete one-article list. -/
theorem calculateConfidence_formula_witness :
    ResearchProcessor.calculateConfidence oneArticle =
      min ((7 / 10) * (((oneArticle.map (fun a => a.relevanceScore)).sum /
            (oneArticle.length : ℚ)) / 10) +
        (3 / 10) * (((uniqueFirst (oneArticle.map (fun a => a.source))).length : ℚ) / 3))
        1 ∧
    ResearchProcessor.calculateConfidence [] = 0 :=
  calculateConfidence_formula oneArticle (by decide)

namespace ResearchProcessor

theorem regexOkAux_escape (cs : List Char) (pa : Bool) :
    regexOkAux (cs.flatMap escChar) 0 pa false = true := by
  induction cs generalizing pa with
  | nil => rfl
  | cons c cs ih =>
    rw [List.flatMap_cons]
    by_cases hc : c ∈ regexSpecials
    · rw [escChar, if_pos hc]
      simp only [List.cons_append, List.nil_append]
      cases hfl : cs.flatMap escChar with
      | nil => simp [regexOkAux]
      | cons x xs =>
        have := ih true
        rw [hfl] at this
        simpa [regexOkAux] using this
    · have hb : c ≠ '\\' := fun he => hc (by rw [he]; decide)
      have hlp : c ≠ '(' := fun he => hc (by rw [he]; decide)
      have hrp : c ≠ ')' := fun he => hc (by rw [he]; decide)
      have hlb : c ≠ '[' := fun he => hc (by rw [he]; decide)
      have hst : c ≠ '*' := fun he => hc (by rw [he]; decide)
      have hpl : c ≠ '+' := fun he => hc (by rw [he]; decide)
      have hqm : c ≠ '?' := fun he => hc (by rw [he]; decide)
      rw [escChar, if_neg hc]
      simp only [List.cons_append, List.nil_append]
      simp [regexOkAux, hb, hlp, hrp, hlb, hst, hpl, hqm, ih true]

/-- Every escaped word compiles to a valid pattern. -/
theorem escapeRegExp_regexOk (w : String) : regexOk (escapeRegExp w) = true :=
  regexOkAux_escape w.data false

/-- The scoring map of the first `rankByRelevance` variant as the total
function it in fact is (the escaping makes the error branch of
`scoreArticleEsc` unreachable). -/
def scoreArticlePure (topicWords : List String) (article : ProcessedArticle) :
    ProcessedArticle :=
  { article with
    relevanceScore :=
      ((topicWords.foldl
          (fun score w =>
            score + countOccsStr w (lowerStr (article.title ++ " " ++ article.summary)) * 2)
          0 : ℕ) : ℚ) }

theorem foldlM_ok {α β : Type} (f : β → α → Except String β) (g : β → α → β)
    (h : ∀ b a, f b a = Except.ok (g b a)) (l : List α) (b : β) :
    l.foldlM f b = Except.ok (l.foldl g b) := by
  induction l generalizing b with
  | nil => rfl
  | cons a l ih =>
    rw [List.foldlM_cons, h, List.foldl_cons]
    exact ih (g b a)

theorem scoreArticleEsc_eq (tw : List String) (a : ProcessedArticle) :
    scoreArticleEsc tw a = Except.ok (scoreArticlePure tw a) := by
  simp only [scoreArticleEsc, scoreArticlePure]
  rw [foldlM_ok _ (fun score w =>
      score + countOccsStr w (lowerStr (a.title ++ " " ++ a.summary)) * 2)
    (fun b w => by rw [if_pos (escapeRegExp_regexOk w)])]
  rfl

theorem mapExcept_scoreArticleEsc (tw : List String)
    (articles : List ProcessedArticle) :
    mapExcept (scoreArticleEsc tw) articles =
      Except.ok (articles.map (scoreArticlePure tw)) := by
  induction articles with
  | nil => rfl
  | cons a l ih =>
    rw [mapExcept, scoreArticleEsc_eq]
    show mapExcept (scoreArticleEsc tw) l >>= _ = _
    rw [ih]
    rfl

theorem rankByRelevance_eq (articles : List ProcessedArticle) (topic : String) :
    rankByRelevance articles topic =
      Except.ok (List.insertionSort scoreGE
        (articles.map (scoreArticlePure (splitWordsJs topic)))) := by
  simp only [rankByRelevance]
  rw [mapExcept_scoreArticleEsc]
  rfl

end ResearchProcessor

/-- Claim C5 (amended): the first `rankByRelevance` variant escapes every
topic word before building its match pattern, every escaped pattern is a
valid regular expression, and the ranking is therefore total — it returns a
result for every topic and every article list.  The second variant
(`jest.config.js` lines 533-549) does not escape and can throw; see the
counterexample. -/
theorem rankByRelevance_total (topic : String) (articles : List ProcessedArticle) :
    (∀ w : String, ResearchProcessor.regexOk (ResearchProcessor.escapeRegExp w) = true) ∧
    ∃ ranked, ResearchProcessor.rankByRelevance articles topic = Except.ok ranked :=
  ⟨ResearchProcessor.escapeRegExp_regexOk,
   ⟨_, ResearchProcessor.rankByRelevance_eq articles topic⟩⟩

/-- One arbitrary article, enough for the ranking step of the second
variant to build a pattern from the topic. -/
def plainArticle : ProcessedArticle :=
  { title := "T", url := "u", summary := "s", source := "src" }

/-- Claim C5 (counterexample): the second `rankByRelevance` variant does
not escape — on the topic `"("` (an invalid pattern: unterminated group)
with one article it throws instead of returning a result. -/
theorem rankByRelevanceUnescaped_crashes :
    ResearchProcessor.rankByRelevanceUnescaped [plainArticle] "(" =
      Except.error "Invalid regular expression" := by rfl

theorem foldl_add_eq_sum (f : String → ℕ) (l : List String) (s : ℕ) :
    l.foldl (fun acc w => acc + f w) s = s + (l.map f).sum := by
  induction l generalizing s with
  | nil => simp
  | cons a l ih =>
    rw [List.foldl_cons, ih, List.map_cons, List.sum_cons]
    ring

/-- Article A of the claim C6 scenario: contains "climate" twice and
"change" once. -/
def scenarioArticleA : ProcessedArticle :=
  { title := "Climate climate change", url := "a", summary := "", source := "s1" }

/-- Article B of the claim C6 scenario: contains neither topic word. -/
def scenarioArticleB : ProcessedArticle :=
  { title := "Economics", url := "b", summary := "nothing here", source := "s2" }

/-- Article C of the claim C6 scenario: contains "climate" once. -/
def scenarioArticleC : ProcessedArticle :=
  { title := "Climate", url := "c", summary := "", source := "s3" }

/-- Claim C6: the relevance score assigned to an article is the sum, over
the topic words, of 2 times the case-insensitive occurrence count of that
word in `title ++ " " ++ summary`; and in the concrete scenario with topic
"climate change" the scores are A=6, C=2, B=0 with ranked order A, C, B. -/
theorem relevanceScore_sum_and_scenario :
    (∀ (tw : List String) (a : ProcessedArticle),
      (ResearchProcessor.scoreArticlePure tw a).relevanceScore =
        (((tw.map (fun w =>
            2 * countOccsStr w (lowerStr (a.title ++ " " ++ a.summary)))).sum : ℕ) : ℚ)) ∧
    ResearchProcessor.rankByRelevance
        [scenarioArticleA, scenarioArticleB, scenarioArticleC] "climate change" =
      Except.ok
        [{ scenarioArticleA with relevanceScore := 6 },
         { scenarioArticleC with relevanceScore := 2 },
         { scenarioArticleB with relevanceScore := 0 }] := by
  constructor
  · intro tw a
    simp only [ResearchProcessor.scoreArticlePure]
    rw [foldl_add_eq_sum
      (fun w => countOccsStr w (lowerStr (a.title ++ " " ++ a.summary)) * 2) tw 0]
    simp [Nat.mul_comm]
  · rw [ResearchProcessor.rankByRelevance_eq]
    rfl

namespace ResearchProcessor

theorem removeDuplicates_ne_nil (articles : List ProcessedArticle)
    (h : articles ≠ []) : removeDuplicates articles ≠ [] := by
  cases articles with
  | nil => exact absurd rfl h
  | cons a t => simp [removeDuplicates, removeDuplicatesAux]

theorem processArticles_eq (articles : List ProcessedArticle) (topic : String) :
    processArticles articles topic =
      (List.insertionSort scoreGE
        ((removeDuplicates articles).map (scoreArticlePure (splitWordsJs topic)))).take 20 := by
  unfold processArticles
  rw [rankByRelevance_eq]

theorem processArticles_ne_nil (articles : List ProcessedArticle) (topic : String)
    (h : articles ≠ []) : processArticles articles topic ≠ [] := by
  rw [processArticles_eq]
  intro hnil
  have hlen := congrArg List.length hnil
  rw [List.length_take, (List.perm_insertionSort scoreGE _).length_eq,
    List.length_map] at hlen
  have hd : (removeDuplicates articles).length ≠ 0 := by
    simpa [List.length_eq_zero] using removeDuplicates_ne_nil articles h
  simp only [List.length_nil] at hlen
  omega

theorem mem_processArticles_score_nonneg (articles : List ProcessedArticle)
    (topic : String) :
    ∀ a ∈ processArticles articles topic, 0 ≤ a.relevanceScore := by
  rw [processArticles_eq]
  intro a ha
  have h1 : a ∈ List.insertionSort scoreGE
      ((removeDuplicates articles).map (scoreArticlePure (splitWordsJs topic))) :=
    List.mem_of_mem_take ha
  have h2 := (List.perm_insertionSort scoreGE _).mem_iff.mp h1
  rcases List.mem_map.mp h2 with ⟨b, _, hb⟩
  rw [← hb]
  simp [scoreArticlePure]

theorem uniqueFirst_length_pos (l : List String) (h : l ≠ []) :
    0 < (uniqueFirst l).length := by
  cases l with
  | nil => exact absurd rfl h
  | cons x t => simp [uniqueFirst, uniqueFirstAux]

theorem calculateConfidence_le_one (articles : List ProcessedArticle) :
    calculateConfidence articles ≤ 1 := by
  unfold calculateConfidence
  split
  · norm_num
  · exact min_le_right _ _

theorem calculateConfidence_pos (articles : List ProcessedArticle)
    (h : articles ≠ []) (hs : ∀ a ∈ articles, 0 ≤ a.relevanceScore) :
    0 < calculateConfidence articles := by
  unfold calculateConfidence
  rw [if_neg (fun hc => h (List.length_eq_zero.mp hc))]
  have hlen : 0 < (articles.length : ℚ) := by
    have : articles.length ≠ 0 := fun hc => h (List.length_eq_zero.mp hc)
    exact_mod_cast Nat.pos_of_ne_zero this
  have havg : 0 ≤ (articles.map (fun a => a.relevanceScore)).sum / (articles.length : ℚ) := by
    refine div_nonneg (List.sum_nonneg ?_) hlen.le
    intro x hx
    rcases List.mem_map.mp hx with ⟨a, ha, rfl⟩
    exact hs a ha
  have hsv : (1 : ℚ) ≤ ((uniqueFirst (articles.map (fun a => a.source))).length : ℚ) := by
    have := uniqueFirst_length_pos (articles.map (fun a => a.source))
      (by simpa [List.map_eq_nil_iff] using h)
    exact_mod_cast this
  refine lt_min ?_ (by norm_num)
  have h1 : (0 : ℚ) <
      ((uniqueFirst (articles.map (fun a => a.source))).length : ℚ) / 3 * (3 / 10) := by
    have : (0 : ℚ) < (1 : ℚ) / 3 * (3 / 10) := by norm_num
    calc (0 : ℚ) < (1 : ℚ) / 3 * (3 / 10) := this
    _ ≤ ((uniqueFirst (articles.map (fun a => a.source))).length : ℚ) / 3 * (3 / 10) := by
        gcongr
  have h2 : (0 : ℚ) ≤
      (articles.map (fun a => a.relevanceScore)).sum / (articles.length : ℚ) / 10 * (7 / 10) := by
    positivity
  linarith

end ResearchProcessor

/-- Claim C4 (amended): every Research Result the `ResearchProcessor`
pipeline returns has confidence in `[0, 1]` with `confidence = 0` iff
`totalArticles = 0`; the `ResearchWorker` variant violates the iff (see the
counterexample). -/
theorem pipeline_confidence_bounds (topic : String)
    (fetched : List ProcessedArticle) (kwOutcome : Except Unit (List String))
    (sumOutcome : Except Unit (String × List String)) (elapsed : ℕ)
    (r : ResearchProcessor.ResearchResults)
    (h : (ResearchProcessor.execute topic fetched kwOutcome sumOutcome true
        elapsed).result = some r) :
    0 ≤ r.confidence ∧ r.confidence ≤ 1 ∧
    (r.confidence = 0 ↔ r.totalArticles = 0) := by
  by_cases hf : fetched.length = 0
  · rw [ResearchProcessor.execute, if_pos hf, if_pos rfl] at h
    have hr := (Option.some_injective _ h).symm
    subst hr
    norm_num
  · rw [ResearchProcessor.execute, if_neg hf, if_pos rfl] at h
    have hr := (Option.some_injective _ h).symm
    subst hr
    have hne : fetched ≠ [] := fun hc => hf (by rw [hc]; rfl)
    have hp := ResearchProcessor.processArticles_ne_nil fetched topic hne
    have hpos := ResearchProcessor.calculateConfidence_pos
      (ResearchProcessor.processArticles fetched topic) hp
      (ResearchProcessor.mem_processArticles_score_nonneg fetched topic)
    refine ⟨hpos.le, ResearchProcessor.calculateConfidence_le_one _, ?_⟩
    constructor
    · intro hzero
      exact absurd hzero hpos.ne'
    · intro hzero
      exact absurd (List.length_eq_zero.mp hzero) hp

/-- Witness for the amended claim C4 on the zero-article path. -/
theorem pipeline_confidence_bounds_witness :
    0 ≤ (ResearchProcessor.ResearchResults.mk
        (ResearchProcessor.emptyTopicSummary "t")
        ["No insights available due to lack of data"] [] [] 0 0 0).confidence ∧
    (ResearchProcessor.ResearchResults.mk
        (ResearchProcessor.emptyTopicSummary "t")
        ["No insights available due to lack of data"] [] [] 0 0 0).confidence ≤ 1 ∧
    ((ResearchProcessor.ResearchResults.mk
        (ResearchProcessor.emptyTopicSummary "t")
        ["No insights available due to lack of data"] [] [] 0 0 0).confidence = 0 ↔
      (ResearchProcessor.ResearchResults.mk
        (ResearchProcessor.emptyTopicSummary "t")
        ["No insights available due to lack of data"] [] [] 0 0 0).totalArticles = 0) :=
  pipeline_confidence_bounds "t" [] (Except.ok []) (Except.ok ("s", [])) 0 _ rfl

/-- Claim C4 (counterexample): the `ResearchWorker` pipeline
(`src/unnamed/part_004`) computes, for a run in which both providers return
zero articles, a result with `totalArticles = 0` but `confidence = 0.5`,
violating `confidence = 0 ⟺ totalArticles = 0`. -/
theorem workerConfidence_violates_iff :
    ResearchWorker.totalArticlesFor [] "any topic" = 0 ∧
    ResearchWorker.confidenceFor [] "any topic" = 1 / 2 ∧
    ¬(ResearchWorker.confidenceFor [] "any topic" = 0 ↔
      ResearchWorker.totalArticlesFor [] "any topic" = 0) := by
  have hp : ResearchWorker.processArticles [] "any topic" = [] := rfl
  have hc : ResearchWorker.confidenceFor [] "any topic" = 1 / 2 := by
    rw [ResearchWorker.confidenceFor, hp, ResearchWorker.calculateConfidence]
    norm_num
  refine ⟨rfl, hc, fun hiff => ?_⟩
  have := hiff.mpr rfl
  rw [hc] at this
  norm_num at this

/-- Claim C2: when every configured search provider returns zero articles
(so the fetched list is empty) and the final save succeeds, the pipeline
completes normally: the job ends `completed` (never `failed`), the result
is the minimal Research Result with `totalArticles = 0`, `confidence = 0`,
a non-empty summary and one key insight, and the last reported progress is
100. -/
theorem emptyProviders_completed (topic : String)
    (kwOutcome : Except Unit (List String))
    (sumOutcome : Except Unit (String × List String)) (elapsed : ℕ) :
    (ResearchProcessor.execute topic [] kwOutcome sumOutcome true
        elapsed).finalStatus = ResearchProcessor.RequestStatus.completed ∧
    (ResearchProcessor.execute topic [] kwOutcome sumOutcome true
        elapsed).finalStatus ≠ ResearchProcessor.RequestStatus.failed ∧
    (ResearchProcessor.execute topic [] kwOutcome sumOutcome true
        elapsed).result = some
      { summary := ResearchProcessor.emptyTopicSummary topic
        keyInsights := ["No insights available due to lack of data"]
        keywords := []
        articles := []
        totalArticles := 0
        processingTime := elapsed
        confidence := 0 } ∧
    0 < (ResearchProcessor.emptyTopicSummary topic).length ∧
    1 ≤ (["No insights available due to lack of data"] : List String).length ∧
    (ResearchProcessor.execute topic [] kwOutcome sumOutcome true
        elapsed).progressTrace.getLast? = some 100 := by
  have hsum : 0 < (ResearchProcessor.emptyTopicSummary topic).length := by
    rw [ResearchProcessor.emptyTopicSummary, String.length_append,
      String.length_append]
    have h38 : 0 < ("No articles were found for the topic \"" : String).length := by
      decide
    omega
  refine ⟨rfl, by simp [ResearchProcessor.execute], rfl, hsum, by decide, rfl⟩

/-- Claim C8: for every modelled run of the pipeline on one job, the
sequence of progress values reported to the sink is a subsequence of the
fixed checkpoints `0, 10, 40, 70, 85, 95, 100` taken in that order, and is
monotonically non-decreasing, so no value is ever lower than an earlier
one. -/
theorem progressTrace_checkpoints (topic : String)
    (fetched : List ProcessedArticle) (kwOutcome : Except Unit (List String))
    (sumOutcome : Except Unit (String × List String)) (saveOk : Bool)
    (elapsed : ℕ) :
    (ResearchProcessor.execute topic fetched kwOutcome sumOutcome saveOk
        elapsed).progressTrace.Sublist [0, 10, 40, 70, 85, 95, 100] ∧
    (ResearchProcessor.execute topic fetched kwOutcome sumOutcome saveOk
        elapsed).progressTrace.Chain' (· ≤ ·) := by
  by_cases hf : fetched.length = 0 <;> cases saveOk <;>
    simp only [ResearchProcessor.execute, hf, if_true, if_false, Bool.false_eq_true,
      ite_true, ite_false, reduceIte] <;>
    exact ⟨by decide, by simp [List.chain'_cons]⟩

/-- Claim C7: when the keyword-extraction call and the summarization call
both throw, the job is not aborted — with a non-empty fetched list (and the
final save succeeding) the job still completes, and the result carries the
deterministic fallbacks: the word-frequency keywords capped at 10, the
summary string "Research summary based on N articles. Key topics include:
<top 5 titles>", and the 3-line insight fallback. -/
theorem stageFallbacks_complete (topic : String)
    (fetched : List ProcessedArticle) (elapsed : ℕ) (h : fetched ≠ []) :
    (ResearchProcessor.execute topic fetched (Except.error ()) (Except.error ())
        true elapsed).finalStatus = ResearchProcessor.RequestStatus.completed ∧
    (ResearchProcessor.execute topic fetched (Except.error ()) (Except.error ())
        true elapsed).result = some
      { summary := ResearchProcessor.fallbackSummaryGeneration
          (ResearchProcessor.processArticles fetched topic)
        keyInsights := ResearchProcessor.fallbackInsightGeneration
          (ResearchProcessor.processArticles fetched topic)
        keywords := ResearchProcessor.fallbackKeywordExtraction
          (ResearchProcessor.processArticles fetched topic)
        articles := ResearchProcessor.processArticles fetched topic
        totalArticles := (ResearchProcessor.processArticles fetched topic).length
        processingTime := elapsed
        confidence := ResearchProcessor.calculateConfidence
          (ResearchProcessor.processArticles fetched topic) } ∧
    (ResearchProcessor.fallbackKeywordExtraction
        (ResearchProcessor.processArticles fetched topic)).length ≤ 10 ∧
    ResearchProcessor.fallbackSummaryGeneration
        (ResearchProcessor.processArticles fetched topic) =
      "Research summary based on " ++
        toString (ResearchProcessor.processArticles fetched topic).length ++
        " articles. Key topics include: " ++
        String.intercalate "; "
          (((ResearchProcessor.processArticles fetched topic).take 5).map
            (fun a => a.title)) ∧
    (ResearchProcessor.fallbackInsightGeneration
        (ResearchProcessor.processArticles fetched topic)).length = 3 := by
  have hf : fetched.length ≠ 0 := fun hc => h (List.length_eq_zero.mp hc)
  have hp := ResearchProcessor.processArticles_ne_nil fetched topic h
  have hpl : (ResearchProcessor.processArticles fetched topic).length ≠ 0 :=
    fun hc => hp (List.length_eq_zero.mp hc)
  refine ⟨?_, ?_, ?_, ?_, ?_⟩
  · simp [ResearchProcessor.execute, hf]
  · simp [ResearchProcessor.execute, hf]
  · simp only [ResearchProcessor.fallbackKeywordExtraction, List.length_map,
      List.length_take]
    omega
  · rw [ResearchProcessor.fallbackSummaryGeneration, if_neg hpl]
  · rw [ResearchProcessor.fallbackInsightGeneration, if_neg hpl]
    rfl

/-- One concrete article to exercise the non-empty path of the pipeline. -/
def witnessArticle : ProcessedArticle :=
  { title := "Solar", url := "https://s", summary := "solar power", source := "w" }

/-- Witness for claim C7 with one fetched article and both stages
throwing. -/
theorem stageFallbacks_complete_witness :
    (ResearchProcessor.execute "solar" [witnessArticle] (Except.error ())
        (Except.error ()) true 0).finalStatus =
      ResearchProcessor.RequestStatus.completed :=
  (stageFallbacks_complete "solar" [witnessArticle] 0 (by decide)).1

namespace EmbeddedJobProcessor

theorem findIdx?_decomp (p : QueuedJob → Bool) (jobs : List QueuedJob) (i : ℕ)
    (h : jobs.findIdx? p = some i) :
    ∃ l₁ j l₂, jobs = l₁ ++ j :: l₂ ∧ l₁.length = i ∧
      (∀ x ∈ l₁, p x = false) ∧ p j = true := by
  induction jobs generalizing i with
  | nil => simp [List.findIdx?] at h
  | cons b rest ih =>
    have hcons : (b :: rest).findIdx? p =
        if p b then some 0 else (rest.findIdx? p).map (· + 1) := by
      simp [List.findIdx?_cons]
    rw [hcons] at h
    by_cases hb : p b
    · rw [if_pos hb] at h
      refine ⟨[], b, rest, rfl, ?_, by simp, hb⟩
      simpa using Option.some_injective _ h
    · rw [if_neg hb, Option.map_eq_some'] at h
      rcases h with ⟨i', hi', rfl⟩
      rcases ih i' hi' with ⟨l₁, j, l₂, hsplit, hlen, hall, hj⟩
      refine ⟨b :: l₁, j, l₂, by simp [hsplit], by simp [hlen], ?_, hj⟩
      intro x hx
      rcases List.mem_cons.mp hx with h | h
      · rw [h]; exact Bool.eq_false_iff.mpr hb
      · exact hall x h

theorem get?_append_mid (l₁ : List QueuedJob) (j : QueuedJob)
    (l₂ : List QueuedJob) : (l₁ ++ j :: l₂).get? l₁.length = some j := by
  induction l₁ with
  | nil => rfl
  | cons b rest ih => exact ih

theorem set_append_mid (l₁ : List QueuedJob) (j j' : QueuedJob)
    (l₂ : List QueuedJob) :
    (l₁ ++ j :: l₂).set l₁.length j' = l₁ ++ j' :: l₂ := by
  induction l₁ with
  | nil => rfl
  | cons b rest ih =>
    show b :: (rest ++ j :: l₂).set rest.length j' = b :: (rest ++ j' :: l₂)
    rw [ih]

theorem runQueue_succ_none (fuel : ℕ) (jobs : List QueuedJob)
    (h : nextWaitingIdx jobs = none) : runQueue (fuel + 1) jobs = [] := by
  rw [runQueue, h]

theorem runQueue_succ_some (fuel : ℕ) (jobs : List QueuedJob) (i : ℕ)
    (j : QueuedJob) (h1 : nextWaitingIdx jobs = some i)
    (h2 : jobs.get? i = some j) :
    runQueue (fuel + 1) jobs =
      j.topic ::
        runQueue fuel (jobs.set i { j with status := JobStatus.completed }) := by
  rw [runQueue, h1]
  have h2' : jobs[i]? = some j := by
    rw [← List.get?_eq_getElem?]
    exact h2
  simp [h2']

theorem runQueue_fifo (fuel : ℕ) (jobs : List QueuedJob)
    (hfuel : jobs.countP (fun j => j.status == JobStatus.waiting) ≤ fuel) :
    runQueue fuel jobs =
      (jobs.filter (fun j => j.status == JobStatus.waiting)).map QueuedJob.topic := by
  induction fuel generalizing jobs with
  | zero =>
    rw [Nat.le_zero] at hfuel
    rw [runQueue, List.filter_eq_nil_iff.mpr ?_, List.map_nil]
    intro x hx
    exact (List.countP_eq_zero.mp hfuel) x hx
  | succ fuel ih =>
    cases h : nextWaitingIdx jobs with
    | none =>
      rw [runQueue_succ_none fuel jobs h]
      rw [nextWaitingIdx, List.findIdx?_eq_none_iff] at h
      rw [List.filter_eq_nil_iff.mpr ?_, List.map_nil]
      intro x hx
      simpa using h x hx
    | some i =>
      rcases findIdx?_decomp _ jobs i h with ⟨l₁, j, l₂, hsplit, hlen, hall, hj⟩
      subst hsplit
      subst hlen
      rw [runQueue_succ_some fuel _ _ j h (get?_append_mid l₁ j l₂),
        set_append_mid]
      have hcomp :
          (({ j with status := JobStatus.completed } :
              QueuedJob).status == JobStatus.waiting) = false := rfl
      have hcount :
          (l₁ ++ { j with status := JobStatus.completed } :: l₂).countP
              (fun j => j.status == JobStatus.waiting) =
            l₂.countP (fun j => j.status == JobStatus.waiting) := by
        rw [List.countP_append,
          List.countP_eq_zero.mpr (fun x hx => by simp [hall x hx])]
        simp [List.countP_cons, hcomp]
      have hcount' :
          (l₁ ++ j :: l₂).countP (fun j => j.status == JobStatus.waiting) =
            l₂.countP (fun j => j.status == JobStatus.waiting) + 1 := by
        rw [List.countP_append,
          List.countP_eq_zero.mpr (fun x hx => by simp [hall x hx])]
        simp [List.countP_cons, hj]
      rw [ih _ (by rw [hcount]; rw [hcount'] at hfuel; omega)]
      have hfilterNew :
          ((l₁ ++ { j with status := JobStatus.completed } :: l₂).filter
              (fun j => j.status == JobStatus.waiting)) =
            l₂.filter (fun j => j.status == JobStatus.waiting) := by
        rw [List.filter_append,
          List.filter_eq_nil_iff.mpr (fun x hx => by simp [hall x hx]),
          List.nil_append]
        simp [List.filter_cons, hcomp]
      have hfilterOld :
          ((l₁ ++ j :: l₂).filter (fun j => j.status == JobStatus.waiting)) =
            j :: l₂.filter (fun j => j.status == JobStatus.waiting) := by
        rw [List.filter_append,
          List.filter_eq_nil_iff.mpr (fun x hx => by simp [hall x hx]),
          List.nil_append]
        simp [List.filter_cons, hj]
      rw [hfilterNew, hfilterOld, List.map_cons]

end EmbeddedJobProcessor

/-- The three submissions of the scenario: topic "A" at priority low, "B"
at high, "C" at normal, in that order. -/
def scenarioJobs : List EmbeddedJobProcessor.QueuedJob :=
  [EmbeddedJobProcessor.submit "A" EmbeddedJobProcessor.JobPriority.low,
   EmbeddedJobProcessor.submit "B" EmbeddedJobProcessor.JobPriority.high,
   EmbeddedJobProcessor.submit "C" EmbeddedJobProcessor.JobPriority.normal]

/-- Claim C1 (counterexample): the embedded processor executes the
scenario in submission order A, B, C — the spec's priority-then-FIFO
scheduler would run B, C, A — so the claimed order is wrong on the code. -/
theorem executionOrder_ignores_priority :
    EmbeddedJobProcessor.executionOrder scenarioJobs = ["A", "B", "C"] ∧
    EmbeddedJobProcessor.specPriorityOrder scenarioJobs = ["B", "C", "A"] ∧
    EmbeddedJobProcessor.executionOrder scenarioJobs ≠ ["B", "C", "A"] := by
  refine ⟨by decide, by decide, by decide⟩

/-- Claim C1 (amended): job selection in `EmbeddedJobProcessor` is plain
FIFO over the insertion-ordered job table — the first `waiting` entry is
always picked and the priority field is never consulted — so any run to
quiescence executes exactly the waiting jobs in submission order; for the
concrete scenario (A low, B high, C normal) the execution order is
A, B, C. -/
theorem executionOrder_fifo (jobs : List EmbeddedJobProcessor.QueuedJob) :
    EmbeddedJobProcessor.executionOrder jobs =
      (jobs.filter
          (fun j => j.status == EmbeddedJobProcessor.JobStatus.waiting)).map
        EmbeddedJobProcessor.QueuedJob.topic ∧
    EmbeddedJobProcessor.executionOrder scenarioJobs = ["A", "B", "C"] :=
  ⟨EmbeddedJobProcessor.runQueue_fifo jobs.length jobs
      (List.countP_le_length _),
   by decide⟩

namespace KeywordExtractor

theorem bump_map_fst (k : String) (n : ℕ) (m : List (String × ℕ)) :
    (ResearchProcessor.bump k n m).map Prod.fst =
      if k ∈ m.map Prod.fst then m.map Prod.fst
      else m.map Prod.fst ++ [k] := by
  induction m with
  | nil => simp [ResearchProcessor.bump]
  | cons p rest ih =>
    obtain ⟨k', c⟩ := p
    simp only [ResearchProcessor.bump]
    by_cases hk : k' = k
    · subst hk
      simp
    · rw [if_neg hk]
      have hne : ¬ k = k' := fun h => hk h.symm
      by_cases hmem : k ∈ rest.map Prod.fst <;>
        simp [ih, hmem, hne]

theorem foldl_bump_nodup (ws : List String) (n : ℕ)
    (m : List (String × ℕ)) (hm : (m.map Prod.fst).Nodup) :
    (((ws.foldl (fun acc w => ResearchProcessor.bump w n acc) m)).map
      Prod.fst).Nodup := by
  induction ws generalizing m with
  | nil => exact hm
  | cons w ws ih =>
    rw [List.foldl_cons]
    refine ih _ ?_
    rw [bump_map_fst]
    by_cases hmem : w ∈ m.map Prod.fst
    · rwa [if_pos hmem]
    · rw [if_neg hmem]
      simp [List.nodup_append, hm, hmem]

theorem jsLower_not_letter (c : Char) (h : ¬ isLetterCh c = true) :
    jsLower c = c := by
  rw [jsLower, if_neg]
  intro hc
  apply h
  simp only [isLetterCh]
  exact decide_eq_true_eq.mpr (Or.inr hc)

theorem squashWs_all_ws (l : List Char) (h : ∀ c ∈ l, isWsCh c = true) :
    squashWs l = [] ∨ squashWs l = [' '] := by
  induction l with
  | nil => exact Or.inl rfl
  | cons a rest ih =>
    cases rest with
    | nil =>
      right
      simp [squashWs, h a (List.mem_cons_self _ _)]
    | cons b rest2 =>
      have hab : isWsCh a = true ∧ isWsCh b = true :=
        ⟨h a (List.mem_cons_self _ _),
         h b (List.mem_cons_of_mem _ (List.mem_cons_self _ _))⟩
      rw [squashWs, if_pos (by simp [hab.1, hab.2])]
      exact ih (fun c hc => h c (List.mem_cons_of_mem _ hc))

theorem cleanChars_no_letters (text : String)
    (h : ∀ c ∈ text.data, ¬ isLetterCh c = true) : cleanChars text = [] := by
  have hall : ∀ c ∈ (text.data.map jsLower).map
      (fun c => if isLetterCh c ∨ isWsCh c then c else ' '), isWsCh c = true := by
    intro c hc
    rcases List.mem_map.mp hc with ⟨c1, hc1, rfl⟩
    rcases List.mem_map.mp hc1 with ⟨c0, hc0, rfl⟩
    rw [jsLower_not_letter c0 (h c0 hc0)]
    by_cases hws : isWsCh c0 = true
    · rw [if_pos (Or.inr hws)]
      exact hws
    · rw [if_neg (fun hcond => hcond.elim (h c0 hc0) hws)]
      rfl
  rw [cleanChars]
  rcases squashWs_all_ws _ hall with hsq | hsq <;> rw [hsq] <;> rfl

theorem filteredWords_no_letters (text : String)
    (h : ∀ c ∈ text.data, ¬ isLetterCh c = true) :
    filteredWordsOf text = [] := by
  rw [filteredWordsOf, wordsOf, cleanChars_no_letters text h]
  rfl

/-- Claim C10: for every input text and requested maximum `k`,
`KeywordExtractor.extract` returns at most `k` keywords, with no
duplicates, each of length at least 3; and an input that is empty or
contains no letters yields the empty list. -/
theorem extract_bounds (text : String) (k : ℕ) :
    (extract text k).length ≤ k ∧
    (extract text k).Nodup ∧
    (∀ w ∈ extract text k, 3 ≤ w.length) ∧
    ((∀ c ∈ text.data, ¬ isLetterCh c = true) → extract text k = []) := by
  by_cases hws : text.data.all isWsCh
  · rw [extract, if_pos hws]
    exact ⟨Nat.zero_le k, List.nodup_nil, by simp, fun _ => rfl⟩
  · have hform : extract text k =
        (((List.insertionSort ResearchProcessor.countGE
            ((extractPhrases (filteredWordsOf text)).foldl
              (fun m p => ResearchProcessor.bump p 2 m)
              ((filteredWordsOf text).foldl
                (fun m w => ResearchProcessor.bump w 1 m) []))).take k).map
          Prod.fst).filter (fun kw => 2 < kw.length) := by
      rw [extract, if_neg hws]
    rw [hform]
    refine ⟨?_, ?_, ?_, ?_⟩
    · calc ((((List.insertionSort ResearchProcessor.countGE
            ((extractPhrases (filteredWordsOf text)).foldl
              (fun m p => ResearchProcessor.bump p 2 m)
              ((filteredWordsOf text).foldl
                (fun m w => ResearchProcessor.bump w 1 m) []))).take k).map
          Prod.fst).filter (fun kw => 2 < kw.length)).length
          ≤ (((List.insertionSort ResearchProcessor.countGE
            ((extractPhrases (filteredWordsOf text)).foldl
              (fun m p => ResearchProcessor.bump p 2 m)
              ((filteredWordsOf text).foldl
                (fun m w => ResearchProcessor.bump w 1 m) []))).take k).map
          Prod.fst).length := List.length_filter_le _ _
      _ ≤ k := by rw [List.length_map]; exact List.length_take_le _ _
    · have h1 : ((((filteredWordsOf text).foldl
          (fun m w => ResearchProcessor.bump w 1 m) [])).map Prod.fst).Nodup :=
        foldl_bump_nodup _ 1 [] (by simp)
      have h2 : (((extractPhrases (filteredWordsOf text)).foldl
          (fun m p => ResearchProcessor.bump p 2 m)
          ((filteredWordsOf text).foldl
            (fun m w => ResearchProcessor.bump w 1 m) [])).map Prod.fst).Nodup :=
        foldl_bump_nodup _ 2 _ h1
      have h3 : ((List.insertionSort ResearchProcessor.countGE
          ((extractPhrases (filteredWordsOf text)).foldl
            (fun m p => ResearchProcessor.bump p 2 m)
            ((filteredWordsOf text).foldl
              (fun m w => ResearchProcessor.bump w 1 m) []))).map Prod.fst).Nodup :=
        (List.Perm.nodup_iff ((List.perm_insertionSort _ _).map Prod.fst)).mpr h2
      have h4 : (((List.insertionSort ResearchProcessor.countGE
          ((extractPhrases (filteredWordsOf text)).foldl
            (fun m p => ResearchProcessor.bump p 2 m)
            ((filteredWordsOf text).foldl
              (fun m w => ResearchProcessor.bump w 1 m) []))).take k).map
          Prod.fst).Nodup := by
        rw [List.map_take]
        exact List.Nodup.sublist (List.take_sublist _ _) h3
      exact h4.filter _
    · intro w hw
      have := (List.mem_filter.mp hw).2
      have hlen := of_decide_eq_true this
      omega
    · intro hnol
      rw [filteredWords_no_letters text hnol]
      simp [extractPhrases, twoWordPhrases, threeWordPhrases, List.take_nil]

end KeywordExtractor

/-- Witness for claim C10 at a concrete letterless input. -/
theorem extract_bounds_witness :
    KeywordExtractor.extract "123 456 !!!" 15 = [] :=
  (KeywordExtractor.extract_bounds "123 456 !!!" 15).2.2.2 (by decide)

/-- Witness for claim C1 (amended) at the concrete scenario. -/
theorem executionOrder_fifo_witness :
    EmbeddedJobProcessor.executionOrder scenarioJobs =
      (scenarioJobs.filter
          (fun j => j.status == EmbeddedJobProcessor.JobStatus.waiting)).map
        EmbeddedJobProcessor.QueuedJob.topic ∧
    EmbeddedJobProcessor.executionOrder scenarioJobs = ["A", "B", "C"] :=
  executionOrder_fifo scenarioJobs

/-- Witness for claim C2 at a concrete topic. -/
theorem emptyProviders_completed_witness :
    (ResearchProcessor.execute "quantum" [] (Except.ok [])
        (Except.ok ("s", ["i"])) true 0).finalStatus =
      ResearchProcessor.RequestStatus.completed :=
  (emptyProviders_completed "quantum" (Except.ok []) (Except.ok ("s", ["i"])) 0).1

/-- Witness for claim C5 (amended) at a concrete topic and article list. -/
theorem rankByRelevance_total_witness :
    ∃ ranked, ResearchProcessor.rankByRelevance [plainArticle] "solar (power" =
      Except.ok ranked :=
  (rankByRelevance_total "solar (power" [plainArticle]).2

/-- Witness for claim C6: the concrete ranked scenario. -/
theorem relevanceScore_sum_and_scenario_witness :
    ResearchProcessor.rankByRelevance
        [scenarioArticleA, scenarioArticleB, scenarioArticleC] "climate change" =
      Except.ok
        [{ scenarioArticleA with relevanceScore := 6 },
         { scenarioArticleC with relevanceScore := 2 },
         { scenarioArticleB with relevanceScore := 0 }] :=
  relevanceScore_sum_and_scenario.2

/-- Witness for claim C8 at a concrete run. -/
theorem progressTrace_checkpoints_witness :
    (ResearchProcessor.execute "t" [] (Except.ok []) (Except.ok ("s", []))
        true 0).progressTrace.Sublist [0, 10, 40, 70, 85, 95, 100] ∧
    (ResearchProcessor.execute "t" [] (Except.ok []) (Except.ok ("s", []))
        true 0).progressTrace.Chain' (· ≤ ·) :=
  progressTrace_checkpoints "t" [] (Except.ok []) (Except.ok ("s", [])) true 0
